import Mathlib

/-
  Verification development for the odp-mcp repository core:
  the SoQL query compiler (src/soqlBuilder.ts), the resilient HTTP
  request executor (src/httpClient.ts), the token-bucket rate limiter
  (src/rateLimiter.ts) and the LRU response cache (src/cache.ts).

  Each definition is a shallow embedding of the corresponding source
  function; machine floats are modelled as exact rationals, timestamps
  as integers, and thrown JS exceptions as the Except monad.
-/

namespace Odp

/-! Character helpers: quote characters are built from code points so that
    rendered SoQL literals can be written without embedding raw quote
    characters in Lean string literals. -/

def sqc : Char := Char.ofNat 39

def dqc : Char := Char.ofNat 34

def bsl : Char := Char.ofNat 92

def sq : String := String.singleton sqc

def quo (s : String) : String := sq ++ s ++ sq

/-! ## RateLimiter (src/rateLimiter.ts)

    State: capacity (ratePerHour), fractional allowance, last check time.
    JS floats are modelled as exact rationals, Date.now() as an integer
    millisecond timestamp supplied by the caller. -/

structure RateLimiter where
  ratePerHour : ℚ
  allowance : ℚ
  lastCheck : ℤ
deriving DecidableEq

/-- The constructor: allowance starts at ratePerHour, lastCheck at creation time. -/
def RateLimiter.init (rate : ℚ) (now : ℤ) : RateLimiter :=
  { ratePerHour := rate, allowance := rate, lastCheck := now }

/-- RateLimiter.allow from src/rateLimiter.ts lines 11-20. -/
def RateLimiter.allow (rl : RateLimiter) (now : ℤ) : Bool × RateLimiter :=
  let elapsed : ℚ := ((now - rl.lastCheck : ℤ) : ℚ)
  let perMs : ℚ := rl.ratePerHour / (60 * 60 * 1000)
  let allowance := min rl.ratePerHour (rl.allowance + elapsed * perMs)
  if allowance < 1 then
    (false, { ratePerHour := rl.ratePerHour, allowance := allowance, lastCheck := now })
  else
    (true, { ratePerHour := rl.ratePerHour, allowance := allowance - 1, lastCheck := now })

/-! ## LruCache (src/cache.ts)

    A JS Map is modelled as an association list in insertion order
    (JS Map iteration order is insertion order; the first entry is the
    least recently used one). -/

structure CacheEntry (V : Type) where
  value : V
  expiresAt : Option ℤ
deriving DecidableEq

/-- Map.get: the entry stored under a key. -/
def mapGetEntry {K V : Type} [DecidableEq K] (m : List (K × CacheEntry V)) (k : K) :
    Option (CacheEntry V) :=
  (m.find? (fun p => decide (p.1 = k))).map Prod.snd

/-- Map.has. -/
def mapContains {K V : Type} [DecidableEq K] (m : List (K × CacheEntry V)) (k : K) : Bool :=
  (mapGetEntry m k).isSome

/-- Map.delete: removes the entry with the given key. -/
def mapDelete {K V : Type} [DecidableEq K] (m : List (K × CacheEntry V)) (k : K) :
    List (K × CacheEntry V) :=
  m.filter (fun p => !(decide (p.1 = k)))

/-- Map.set: updates in place when the key is present, appends otherwise. -/
def mapSet {K V : Type} [DecidableEq K] (m : List (K × CacheEntry V)) (k : K)
    (e : CacheEntry V) : List (K × CacheEntry V) :=
  if mapContains m k then m.map (fun p => if p.1 = k then (k, e) else p)
  else m ++ [(k, e)]

structure LruCache (K V : Type) where
  map : List (K × CacheEntry V)
  capacity : Nat
  ttlMs : Option ℤ

def LruCache.empty {K V : Type} (capacity : Nat) (ttlMs : Option ℤ) : LruCache K V :=
  { map := [], capacity := capacity, ttlMs := ttlMs }

def LruCache.size {K V : Type} (c : LruCache K V) : Nat := c.map.length

/-- LruCache.get (src/cache.ts lines 17-33): expiry is checked first; an
    expired entry is deleted and reported as a miss; a live entry is moved
    to the most-recently-used position (delete then re-insert). -/
def LruCache.get {K V : Type} [DecidableEq K] (c : LruCache K V) (k : K) (now : ℤ) :
    Option V × LruCache K V :=
  match mapGetEntry c.map k with
  | none => (none, c)
  | some entry =>
    match entry.expiresAt with
    | some exp =>
      if now > exp then (none, { c with map := mapDelete c.map k })
      else (some entry.value, { c with map := mapSet (mapDelete c.map k) k entry })
    | none => (some entry.value, { c with map := mapSet (mapDelete c.map k) k entry })

/-- The map state right after the insertion step of LruCache.set, before
    the capacity check. -/
def LruCache.insertEntry {K V : Type} [DecidableEq K] (c : LruCache K V) (k : K) (v : V)
    (now : ℤ) : List (K × CacheEntry V) :=
  let m1 := if mapContains c.map k then mapDelete c.map k else c.map
  mapSet m1 k { value := v, expiresAt := c.ttlMs.map (fun t => now + t) }

/-- LruCache.set (src/cache.ts lines 35-53): delete a pre-existing entry,
    insert at the most-recently-used end, then evict the first (oldest)
    key when the size exceeds the capacity. -/
def LruCache.set {K V : Type} [DecidableEq K] (c : LruCache K V) (k : K) (v : V)
    (now : ℤ) : LruCache K V :=
  let m2 := c.insertEntry k v now
  let m3 :=
    if m2.length > c.capacity then
      match m2.head? with
      | some p => mapDelete m2 p.1
      | none => m2
    else m2
  { c with map := m3 }

def LruCache.clear {K V : Type} (c : LruCache K V) : LruCache K V :=
  { c with map := [] }

/-- One cache operation, for stating invariants over operation sequences. -/
inductive CacheOp (K V : Type) where
  | opGet (k : K) (t : ℤ)
  | opSet (k : K) (v : V) (t : ℤ)
  | opClear

def applyOp {K V : Type} [DecidableEq K] (c : LruCache K V) : CacheOp K V → LruCache K V
  | .opGet k t => (c.get k t).2
  | .opSet k v t => c.set k v t
  | .opClear => c.clear

/-! ## SoQL builder data model (src/soqlBuilder.ts, part_007)

    JS dynamic values reaching the condition renderer are undefined, null,
    numbers or strings; they are modelled as a four-way sum. -/

inductive JsVal where
  | undef
  | null
  | num (n : ℤ)
  | str (s : String)
deriving DecidableEq

/-- Quote-escaping used by sanitizeValue and the search clause:
    every single quote is doubled. -/
def escQ : List Char → List Char
  | [] => []
  | c :: cs => if c = sqc then sqc :: sqc :: escQ cs else c :: escQ cs

def escapeQuotes (s : String) : String := ⟨escQ s.toList⟩

/-- sanitizeValue (part_007 lines 118-123). -/
def sanitizeValue : JsVal → String
  | .undef => "NULL"
  | .null => "NULL"
  | .num n => toString n
  | .str s => escapeQuotes s

/-- The enumerated aggregate and transform functions. -/
inductive SoqlFunc where
  | fsum | fcount | favg | fmin | fmax | fstddevSamp | fstddevPop
  | fupper | flower | fdateTruncY | fdateTruncYm | fdateTruncYmd | flength | fabs
deriving DecidableEq

def SoqlFunc.render : SoqlFunc → String
  | .fsum => "sum"
  | .fcount => "count"
  | .favg => "avg"
  | .fmin => "min"
  | .fmax => "max"
  | .fstddevSamp => "stddev_samp"
  | .fstddevPop => "stddev_pop"
  | .fupper => "upper"
  | .flower => "lower"
  | .fdateTruncY => "date_trunc_y"
  | .fdateTruncYm => "date_trunc_ym"
  | .fdateTruncYmd => "date_trunc_ymd"
  | .flength => "length"
  | .fabs => "abs"

inductive WhereOperator where
  | eq | ne | lt | gt | le | ge
  | like | notLike
  | opIn | notIn
  | between | notBetween
  | isNull | isNotNull
  | startsWith | containsOp
deriving DecidableEq

def WhereOperator.render : WhereOperator → String
  | .eq => "="
  | .ne => "!="
  | .lt => "<"
  | .gt => ">"
  | .le => "<="
  | .ge => ">="
  | .like => "like"
  | .notLike => "not like"
  | .opIn => "in"
  | .notIn => "not in"
  | .between => "between"
  | .notBetween => "not between"
  | .isNull => "is null"
  | .isNotNull => "is not null"
  | .startsWith => "starts_with"
  | .containsOp => "contains"

inductive BoolJoin where
  | bAnd
  | bOr
deriving DecidableEq

def BoolJoin.render : BoolJoin → String
  | .bAnd => "AND"
  | .bOr => "OR"

structure WhereCondition where
  field : String
  operator : Option WhereOperator := none
  value : JsVal := .undef
  valueIsNumeric : Bool := false
  columnFunction : Option SoqlFunc := none
  valueFunction : Option SoqlFunc := none
  value2 : JsVal := .undef
  values : Option (List JsVal) := none
  booleanType : Option BoolJoin := none
deriving DecidableEq

/-- A select list item: a bare column name string or a structured field. -/
inductive SelectItem where
  | plain (s : String)
  | fieldSel (column : String) (func : Option SoqlFunc) (al : Option String)
      (args : Option (List JsVal))
deriving DecidableEq

/-- The predicate argument: a raw pre-validated string, one condition, or a
    condition sequence. -/
inductive WhereInput where
  | raw (s : String)
  | single (c : WhereCondition)
  | conds (l : List WhereCondition)
deriving DecidableEq

structure SoqlParams where
  select : Option (List SelectItem) := none
  whereQ : Option WhereInput := none
  order : Option (List String) := none
  group : Option (List String) := none
  having : Option String := none
  limit : Option ℤ := none
  offset : Option ℤ := none
  search : Option String := none
deriving DecidableEq

/-! ### Identifier and order-clause grammars -/

/-- Leading character of FIELD_REGEX: at sign, ASCII letter or underscore. -/
def isFieldStart (c : Char) : Bool := c = '@' || c.isAlpha || c = '_'

/-- Continuation character of FIELD_REGEX: letter, digit, underscore,
    colon, at sign or hyphen. -/
def isFieldChar (c : Char) : Bool :=
  c.isAlpha || c.isDigit || c = '_' || c = ':' || c = '@' || c = '-'

def fieldRegexMatch (s : String) : Bool :=
  match s.toList with
  | [] => false
  | c :: cs => isFieldStart c && cs.all isFieldChar

/-- IDENT regex: leading letter or underscore, then letters, digits or
    underscores. -/
def isIdentStart (c : Char) : Bool := c.isAlpha || c = '_'

def isIdentChar (c : Char) : Bool := c.isAlpha || c.isDigit || c = '_'

def identMatch (s : String) : Bool :=
  match s.toList with
  | [] => false
  | c :: cs => isIdentStart c && cs.all isIdentChar

/-- The JS whitespace class, as matched by a regex backslash-s. -/
def isJsSpace (c : Char) : Bool :=
  let n := c.toNat
  n = 9 || n = 10 || n = 11 || n = 12 || n = 13 || n = 32 || n = 160 ||
  n = 0x1680 || (0x2000 ≤ n && n ≤ 0x200a) || n = 0x2028 || n = 0x2029 ||
  n = 0x202f || n = 0x205f || n = 0x3000 || n = 0xfeff

/-- JS line terminators, which the dot metacharacter never matches. -/
def isLineTerm (c : Char) : Bool :=
  let n := c.toNat
  n = 10 || n = 13 || n = 0x2028 || n = 0x2029

/-- JS String.trim removes leading and trailing whitespace. -/
def jsTrim (l : List Char) : List Char :=
  ((l.dropWhile isJsSpace).reverse.dropWhile isJsSpace).reverse

/-- ORDER_CLAUSE regex applied to a trimmed item: an IDENT optionally
    followed by whitespace and one of ASC, DESC, asc, desc. -/
def orderTailMatch : List Char → Bool
  | [] => true
  | c :: cs =>
    if isIdentChar c then orderTailMatch cs
    else if isJsSpace c then
      let rest := cs.dropWhile isJsSpace
      decide (rest = "ASC".toList) || decide (rest = "DESC".toList) ||
      decide (rest = "asc".toList) || decide (rest = "desc".toList)
    else false

def orderClauseMatch (s : String) : Bool :=
  match jsTrim s.toList with
  | [] => false
  | c :: cs => isIdentStart c && orderTailMatch cs

/-! ### DANGEROUS_PATTERNS (part_007 lines 80-99)

    Each regex of the denylist is embedded as a decidable scanner over the
    character list. Word patterns use the JS word-boundary rule: a word
    character is an ASCII letter, digit or underscore. -/

def isWordChar (c : Char) : Bool := c.isAlpha || c.isDigit || c = '_'

/-- Case-insensitive match of a lowercase pattern at the head of the list;
    returns the remaining characters on success. -/
def matchCI : List Char → List Char → Option (List Char)
  | [], rest => some rest
  | _ :: _, [] => none
  | p :: ps, c :: cs => if c.toLower = p then matchCI ps cs else none

/-- Scans for a case-insensitive occurrence of a pattern whose start lies at
    a word boundary and whose tail satisfies the given check; prevWord says
    whether the previous character was a word character. -/
def scanHits (pat : List Char) (post : List Char → Bool) :
    List Char → Bool → Bool
  | [], _ => false
  | c :: cs, prevWord =>
    (!prevWord && ((matchCI pat (c :: cs)).elim false post)) ||
    scanHits pat post cs (isWordChar c)

/-- Tail check for a trailing word boundary. -/
def wordTail : List Char → Bool
  | [] => true
  | c :: _ => !isWordChar c

/-- Tail check accepting anything (used for the xp_ and sp_ patterns). -/
def anyTail : List Char → Bool := fun _ => true

/-- Tail check for the CHAR( and CONCAT( patterns: optional whitespace then
    an opening parenthesis. -/
def parenTail (l : List Char) : Bool :=
  match l.dropWhile isJsSpace with
  | c :: _ => c = '('
  | [] => false

def hasWord (w : String) (l : List Char) : Bool := scanHits w.toList wordTail l false

def hasWordStart (w : String) (l : List Char) : Bool := scanHits w.toList anyTail l false

def hasFuncCall (w : String) (l : List Char) : Bool := scanHits w.toList parenTail l false

/-- Case-sensitive substring occurrence. -/
def hasSubstr (pat : List Char) : List Char → Bool
  | [] => decide (pat = [])
  | c :: cs => pat.isPrefixOf (c :: cs) || hasSubstr pat cs

def isHexDigit (c : Char) : Bool :=
  c.isDigit || (let d := c.toLower; 'a' ≤ d && d ≤ 'f')

/-- The 0x hex-literal pattern: a zero, an x of either case, then at least
    one hex digit. -/
def hasHexLiteral : List Char → Bool
  | [] => false
  | c :: cs =>
    (c = '0' && (match cs with
      | x :: d :: _ => (x = 'x' || x = 'X') && isHexDigit d
      | _ => false)) || hasHexLiteral cs

/-- True when any DANGEROUS_PATTERNS regex matches the string. -/
def containsDangerous (s : String) : Bool :=
  let l := s.toList
  hasSubstr [';'] l ||
  hasSubstr ['-', '-'] l ||
  hasSubstr ['/', '*'] l ||
  hasSubstr ['*', '/'] l ||
  hasWord "union" l ||
  hasWord "into" l ||
  hasWord "drop" l ||
  hasWord "delete" l ||
  hasWord "insert" l ||
  hasWord "update" l ||
  hasWord "exec" l ||
  hasWord "execute" l ||
  hasWordStart "xp_" l ||
  hasWordStart "sp_" l ||
  hasSubstr ['|', '|'] l ||
  hasFuncCall "char" l ||
  hasFuncCall "concat" l ||
  hasHexLiteral l

/-! ### stripQuotedLiterals (part_007 lines 128-132)

    The two global regex replacements removing quoted spans. A span starts
    at a quote and consumes characters that are neither the quote nor a
    backslash, or a backslash followed by any non-line-terminator
    character, until a closing quote; an unterminated span is left alone
    and scanning resumes after its opening quote. -/

/-- Attempts to find the end of a quoted span: given the characters after
    an opening quote, returns the characters after the closing quote. -/
def spanEnd (q : Char) : List Char → Option (List Char)
  | [] => none
  | c :: cs =>
    if c = q then some cs
    else if c = bsl then
      match cs with
      | [] => none
      | d :: cs2 => if isLineTerm d then none else spanEnd q cs2
    else spanEnd q cs

/-- One global replacement pass removing spans quoted by q; the fuel is the
    input length, and every step consumes at least one character. -/
def stripQFuel (q : Char) : Nat → List Char → List Char
  | 0, l => l
  | _, [] => []
  | fuel + 1, c :: cs =>
    if c = q then
      match spanEnd q cs with
      | some rest => stripQFuel q fuel rest
      | none => c :: stripQFuel q fuel cs
    else c :: stripQFuel q fuel cs

def stripQ (q : Char) (l : List Char) : List Char := stripQFuel q l.length l

/-- Single-quoted spans are stripped first, then double-quoted spans. -/
def stripQuotedLiterals (s : String) : String :=
  ⟨stripQ dqc (stripQ sqc s.toList)⟩

/-! ### Validators (part_007 lines 105-171) -/

/-- validateField: empty strings are rejected, the wildcard is allowed,
    everything else must match FIELD_REGEX. -/
def validateField (f : String) (ty : String) : Except String Unit :=
  if f = "" then .error ("Invalid " ++ ty ++ ": must be a non-empty string")
  else if f = "*" then .ok ()
  else if fieldRegexMatch f then .ok ()
  else .error ("Invalid " ++ ty ++ ": " ++ f ++ " must match the field pattern")

/-- ensureSafeClause: strips quoted literals, then scans the denylist. -/
def ensureSafeClause (clause : String) (label : String) : Except String Unit :=
  if clause = "" then .ok ()
  else if containsDangerous (stripQuotedLiterals clause) then
    .error ("Unsafe " ++ label ++ ": potentially dangerous pattern detected")
  else .ok ()

def ensureSafeIdentifiers : List String → Except String Unit
  | [] => .ok ()
  | x :: xs =>
    if identMatch x then ensureSafeIdentifiers xs
    else .error ("Unsafe identifier: " ++ x)

def ensureSafeOrderClauses : List String → Except String Unit
  | [] => .ok ()
  | x :: xs =>
    if orderClauseMatch x then ensureSafeOrderClauses xs
    else .error ("Unsafe order clause: " ++ x)

/-! ### Rendering (part_007 lines 176-330) -/

/-- requireNumeric: only number values pass. -/
def requireNumeric (v : JsVal) (label : String) : Except String ℤ :=
  match v with
  | .num n => .ok n
  | _ => .error ("Expected numeric " ++ label)

/-- buildFunctionArgs: numbers verbatim, strings quoted and quote-escaped;
    a missing or empty argument list renders as the empty string. -/
def buildFunctionArgs (args : Option (List JsVal)) : String :=
  match args with
  | none => ""
  | some [] => ""
  | some l =>
    String.intercalate ", " (l.map (fun a =>
      match a with
      | .num n => toString n
      | _ => quo (sanitizeValue a)))

/-- buildSelectField: validates the column (and alias), applies the
    optional function with extra arguments, appends the alias. -/
def buildSelectField : SelectItem → Except String String
  | .plain s => do
    validateField s "select field"
    pure s
  | .fieldSel column func al args => do
    validateField column "select column"
    let expr := column
    let expr :=
      match func with
      | some f =>
        let a := buildFunctionArgs args
        let suffix := if a = "" then "" else ", " ++ a
        f.render ++ "(" ++ expr ++ suffix ++ ")"
      | none => expr
    match al with
    | some a => do
      validateField a "alias"
      pure (expr ++ " AS " ++ a)
    | none => pure expr

/-- The standard-operator fallthrough of buildConditionExpression
    (part_007 lines 284-297). -/
def standardRender (column : String) (op : WhereOperator) (c : WhereCondition) :
    Except String String :=
  if c.value = .null ∨ c.value = .undef then
    pure (if op = .ne then column ++ " IS NOT NULL" else column ++ " IS NULL")
  else if c.valueIsNumeric then do
    let n ← requireNumeric c.value "value"
    pure (column ++ " " ++ op.render ++ " " ++ toString n)
  else
    let ve := quo (sanitizeValue c.value)
    let ve :=
      match c.valueFunction with
      | some f => f.render ++ "(" ++ ve ++ ")"
      | none => ve
    pure (column ++ " " ++ op.render ++ " " ++ ve)

/-- buildConditionExpression (part_007 lines 230-298). -/
def buildConditionExpression (c : WhereCondition) : Except String String := do
  validateField c.field "where field"
  let column :=
    match c.columnFunction with
    | some f => f.render ++ "(" ++ c.field ++ ")"
    | none => c.field
  let op := c.operator.getD .eq
  match op with
  | .isNull => pure (column ++ " IS NULL")
  | .isNotNull => pure (column ++ " IS NOT NULL")
  | .between | .notBetween =>
    if c.value = .undef ∨ c.value2 = .undef then
      .error "BETWEEN operator requires both value and value2"
    else do
      let val1 ←
        if c.valueIsNumeric then (requireNumeric c.value "value").map toString
        else pure (quo (sanitizeValue c.value))
      let val2 ←
        if c.valueIsNumeric then (requireNumeric c.value2 "value2").map toString
        else pure (quo (sanitizeValue c.value2))
      pure (column ++ " " ++ op.render.toUpper ++ " " ++ val1 ++ " AND " ++ val2)
  | .opIn | .notIn =>
    match c.values with
    | some vs =>
      if vs = [] then .error "IN operator requires a non-empty values array"
      else do
        let rendered ← vs.mapM (fun v =>
          if c.valueIsNumeric then (requireNumeric v "values").map toString
          else pure (quo (sanitizeValue v)))
        pure (column ++ " " ++ op.render.toUpper ++ " (" ++
          String.intercalate ", " rendered ++ ")")
    | none => standardRender column op c
  | .startsWith | .containsOp =>
    let ve := quo (sanitizeValue c.value)
    let ve :=
      match c.valueFunction with
      | some f => f.render ++ "(" ++ ve ++ ")"
      | none => ve
    pure (op.render ++ "(" ++ column ++ ", " ++ ve ++ ")")
  | _ => standardRender column op c

/-- The joiner carried by the condition at a given index, defaulting to
    AND when absent or out of range. -/
def joinerAt (l : List WhereCondition) (i : Nat) : String :=
  match l.get? i with
  | some c => (c.booleanType.map BoolJoin.render).getD "AND"
  | none => "AND"

/-- The reduce of part_007 lines 321-325: the accumulator after processing
    each rendered expression, carrying the running index. -/
def reduceAux (l : List WhereCondition) : List String → Nat → String → String
  | [], _, acc => acc
  | e :: es, i, acc =>
    let acc2 :=
      if i = 0 then "(" ++ e ++ ")"
      else acc ++ " " ++ joinerAt l (i - 1) ++ " (" ++ e ++ ")"
    reduceAux l es (i + 1) acc2

def reduceJoin (l : List WhereCondition) (exprs : List String) : String :=
  reduceAux l exprs 0 ""

/-- buildWhereClause (part_007 lines 303-330); a falsy argument (absent,
    empty string) and an empty array produce no clause. -/
def buildWhereClause : Option WhereInput → Except String (Option String)
  | none => pure none
  | some (.raw s) =>
    if s = "" then pure none
    else do
      ensureSafeClause s "where"
      pure (some s)
  | some (.conds l) =>
    if l = [] then pure none
    else do
      let exprs ← l.mapM buildConditionExpression
      pure (some (reduceJoin l exprs))
  | some (.single c) => do
    let e ← buildConditionExpression c
    pure (some e)

/-! ### The two assembly modes (part_007 lines 335-440)

    Both modes run the same validations in the same order; the shared
    prefix is factored into soqlPrelude. -/

def renderSelectList : Option (List SelectItem) → Except String (Option String)
  | none => pure none
  | some [] => pure none
  | some l => do
    let rs ← l.mapM buildSelectField
    pure (some (String.intercalate ", " rs))

def renderGroupList : Option (List String) → Except String (Option String)
  | none => pure none
  | some [] => pure none
  | some l => do
    ensureSafeIdentifiers l
    pure (some (String.intercalate ", " l))

def renderHavingClause : Option String → Except String (Option String)
  | none => pure none
  | some s =>
    if s = "" then pure none
    else do
      ensureSafeClause s "having"
      pure (some s)

def renderOrderList : Option (List String) → Except String (Option String)
  | none => pure none
  | some [] => pure none
  | some l => do
    ensureSafeOrderClauses l
    pure (some (String.intercalate ", " l))

/-- The search term when truthy. -/
def searchText (p : SoqlParams) : Option String :=
  match p.search with
  | none => none
  | some s => if s = "" then none else some s

/-- The validated clause texts shared by both output modes, in the order
    the source validates them: select, where, group, having, order. -/
def soqlPrelude (p : SoqlParams) :
    Except String (Option String × Option String × Option String ×
      Option String × Option String) := do
  let sel ← renderSelectList p.select
  let wh ← buildWhereClause p.whereQ
  let gr ← renderGroupList p.group
  let hav ← renderHavingClause p.having
  let ord ← renderOrderList p.order
  pure (sel, wh, gr, hav, ord)

def optPart (kw : String) : Option String → List String
  | some s => [kw ++ s]
  | none => []

def optEntry (key : String) : Option String → List (String × String)
  | some s => [(key, s)]
  | none => []

/-- The parts array of buildSoqlQuery, in source order. -/
def soqlQueryParts (p : SoqlParams) : Except String (List String) := do
  let (sel, wh, gr, hav, ord) ← soqlPrelude p
  pure (optPart "SELECT " sel ++ optPart "WHERE " wh ++ optPart "GROUP BY " gr ++
    optPart "HAVING " hav ++ optPart "ORDER BY " ord ++
    (match searchText p with
     | some s => ["SEARCH " ++ quo (escapeQuotes s)]
     | none => []) ++
    (match p.limit with
     | some n => ["LIMIT " ++ toString n]
     | none => []) ++
    (match p.offset with
     | some n => ["OFFSET " ++ toString n]
     | none => []))

/-- buildSoqlQuery: the parts joined by single spaces. -/
def buildSoqlQuery (p : SoqlParams) : Except String String :=
  (soqlQueryParts p).map (String.intercalate " ")

/-- buildSoqlParams: the parameter map as an association list in insertion
    order; the search term is carried raw under the q key. -/
def buildSoqlParams (p : SoqlParams) : Except String (List (String × String)) := do
  let (sel, wh, gr, hav, ord) ← soqlPrelude p
  pure (optEntry "$select" sel ++ optEntry "$where" wh ++ optEntry "$group" gr ++
    optEntry "$having" hav ++ optEntry "$order" ord ++
    (match searchText p with
     | some s => [("$q", s)]
     | none => []) ++
    (match p.limit with
     | some n => [("$limit", toString n)]
     | none => []) ++
    (match p.offset with
     | some n => [("$offset", toString n)]
     | none => []))

/-- The keyword (with its separating space) heading each parameter-map key
    in string mode. -/
def keywordOf (key : String) : String :=
  if key = "$select" then "SELECT "
  else if key = "$where" then "WHERE "
  else if key = "$group" then "GROUP BY "
  else if key = "$having" then "HAVING "
  else if key = "$order" then "ORDER BY "
  else if key = "$limit" then "LIMIT "
  else if key = "$offset" then "OFFSET "
  else ""

/-- How one parameter-map entry appears as a string-mode part: every clause
    is the keyword plus the map value, except the search clause, whose map
    value is the raw term while the part quotes and escapes it. -/
def entryToPart (e : String × String) : String :=
  if e.1 = "$q" then "SEARCH " ++ quo (escapeQuotes e.2)
  else keywordOf e.1 ++ e.2

/-! ## Request executor (src/httpClient.ts)

    A physical attempt either yields a parsed 2xx response or throws: an
    HttpError carrying an HTTP status, or a status-less failure such as an
    aborted fetch after a timeout or a network error. The data parsed from
    the body is abstracted as a type parameter. -/

structure HttpResponseM (α : Type) where
  status : Nat
  data : α
deriving DecidableEq

inductive ReqError where
  | http (status : Nat) (message : String)
  | netfail (message : String)
deriving DecidableEq

/-- extractStatus (src/httpClient.ts lines 171-181): HttpError instances
    carry their status, other thrown values carry none. -/
def extractStatus : ReqError → Option Nat
  | .http s _ => some s
  | .netfail _ => none

/-- The retry classification of src/httpClient.ts line 72: status exactly
    429, or any status in the interval from 500 up to but excluding 600. -/
def isRetryableStatus (st : Option Nat) : Bool :=
  st == some 429 ||
  (match st with
   | some s => decide (500 ≤ s) && decide (s < 600)
   | none => false)

/-- What one network attempt would produce if actually performed. -/
inductive AttemptOutcome (α : Type) where
  | success (resp : HttpResponseM α)
  | failure (err : ReqError)
deriving DecidableEq

def outcomeResult {α : Type} : AttemptOutcome α → Except ReqError (HttpResponseM α)
  | .success r => .ok r
  | .failure e => .error e

def rateLimitMsg : String := "HTTP 429: client rate limit exceeded"

/-- performRequest (src/httpClient.ts lines 82-136): the bound limiter is
    consulted first; a denial throws HttpError with status 429 and the
    network is not touched; otherwise the attempt outcome is returned. -/
def performRequest {α : Type} (limiter : Option RateLimiter) (now : ℤ)
    (net : AttemptOutcome α) :
    Except ReqError (HttpResponseM α) × Option RateLimiter :=
  match limiter with
  | none => (outcomeResult net, none)
  | some rl =>
    let r := rl.allow now
    if r.1 then (outcomeResult net, some r.2)
    else (.error (.http 429 rateLimitMsg), some r.2)

/-- True when the executor stops at this attempt: success, or a failure
    whose status is not retryable. -/
def stopAt {α : Type} (net : Nat → AttemptOutcome α) (i : Nat) : Bool :=
  match net i with
  | .success _ => true
  | .failure e => !isRetryableStatus (extractStatus e)

deriving instance DecidableEq for Except

structure RequestResult (α : Type) where
  result : Except ReqError (HttpResponseM α)
  attempts : Nat
  delays : List Nat
deriving DecidableEq

/-- The retry loop of HttpClient.request (src/httpClient.ts lines 61-80),
    with fuel counting the remaining loop iterations: attempts are numbered
    from 1, the attempt timestamps and outcomes come from oracles, and the
    backoff sleeps are recorded rather than performed. -/
def requestAux {α : Type} (retryBaseMs : Nat) (net : Nat → AttemptOutcome α)
    (times : Nat → ℤ) :
    Nat → Nat → Option ReqError → Option RateLimiter → RequestResult α
  | 0, attempt, lastError, _ =>
    { result := .error (lastError.getD (.netfail "undefined")),
      attempts := attempt, delays := [] }
  | fuel + 1, attempt, _, limiter =>
    let attempt2 := attempt + 1
    let pr := performRequest limiter (times attempt2) (net attempt2)
    match pr.1 with
    | .ok resp => { result := .ok resp, attempts := attempt2, delays := [] }
    | .error err =>
      if !isRetryableStatus (extractStatus err) || fuel == 0 then
        { result := .error err, attempts := attempt2, delays := [] }
      else
        let r2 := requestAux retryBaseMs net times fuel attempt2 (some err) pr.2
        { result := r2.result, attempts := r2.attempts,
          delays := (retryBaseMs * 2 ^ (attempt2 - 1)) :: r2.delays }

/-- HttpClient.request: run the loop with the full attempt budget. -/
def request {α : Type} (maxRetries retryBaseMs : Nat) (net : Nat → AttemptOutcome α)
    (times : Nat → ℤ) (limiter : Option RateLimiter) : RequestResult α :=
  requestAux retryBaseMs net times maxRetries 0 none limiter

/-! ### Specification-side statements used to phrase the claims -/

/-- Concatenation of a list of strings. -/
def strConcat : List String → String
  | [] => ""
  | x :: xs => x ++ strConcat xs

/-- The join rule as the specification words it: the first condition is
    parenthesized, and each later condition is appended with the joiner
    carried by the condition before it, AND when unset. -/
def specJoin (conds : List WhereCondition) (exprs : List String) : String :=
  match exprs with
  | [] => ""
  | e :: es =>
    "(" ++ e ++ ")" ++ strConcat (List.zipWith
      (fun cnd ex =>
        " " ++ (cnd.booleanType.map BoolJoin.render).getD "AND" ++ " (" ++ ex ++ ")")
      conds es)

/-- The keys of an association map are pairwise distinct. -/
abbrev keysNodup {K V : Type} (m : List (K × CacheEntry V)) : Prop :=
  (m.map Prod.fst).Nodup

/-! ## Theorems -/

/-- Helper: a string matching FIELD_REGEX passes validateField. -/
theorem validateField_ok (f ty : String) (h : fieldRegexMatch f = true) :
    validateField f ty = .ok () := by
  have h1 : f ≠ "" := by
    rintro rfl
    have : fieldRegexMatch "" = false := by decide
    rw [this] at h
    exact Bool.false_ne_true h
  have h2 : f ≠ "*" := by
    rintro rfl
    have : fieldRegexMatch "*" = false := by decide
    rw [this] at h
    exact Bool.false_ne_true h
  simp [validateField, h1, h2, h]

/-- C7: every allow() call first recomputes the allowance as
    min(capacity, allowance + elapsedMs * capacity / 3600000), then denies
    without further mutation when the allowance is below 1 and otherwise
    decrements it by 1 and permits; for a capacity-1 bucket the first call
    permits, an immediate second call denies, and a call after one full
    refill interval permits again. -/
theorem rateLimiter_allow_spec :
    (∀ (rl : RateLimiter) (now : ℤ),
      rl.allow now =
        (let a2 := min rl.ratePerHour
          (rl.allowance + ((now - rl.lastCheck : ℤ) : ℚ) *
            (rl.ratePerHour / (60 * 60 * 1000)))
         if a2 < 1 then
           (false, { ratePerHour := rl.ratePerHour, allowance := a2, lastCheck := now })
         else
           (true, { ratePerHour := rl.ratePerHour, allowance := a2 - 1, lastCheck := now }))) ∧
    ((RateLimiter.init 1 0).allow 0).1 = true ∧
    (((RateLimiter.init 1 0).allow 0).2.allow 0).1 = false ∧
    ((((RateLimiter.init 1 0).allow 0).2.allow 0).2.allow 3600000).1 = true := by
  refine ⟨fun rl now => rfl, ?_, ?_, ?_⟩ <;>
    norm_num [RateLimiter.init, RateLimiter.allow, min_def]

/-- Helper: folding three adjacent appended segments in the middle of a
    string concatenation. -/
theorem append_mid (f a b c d q : String) (h : a ++ b ++ c = d) :
    f ++ a ++ b ++ c ++ q = f ++ d ++ q := by
  subst h
  simp [String.append_assoc]

/-- Helper: bind on an ok value reduces. -/
theorem exceptBind_ok {ε α β : Type} (a : α) (f : α → Except ε β) :
    ((Except.ok a : Except ε α) >>= f) = f a := rfl

/-- Helper: bind on an error short-circuits. -/
theorem exceptBind_err {ε α β : Type} (e : ε) (f : α → Except ε β) :
    ((Except.error e : Except ε α) >>= f) = Except.error e := rfl

/-- Helper: map on an ok value reduces. -/
theorem exceptMap_ok {ε α β : Type} (f : α → β) (a : α) :
    Except.map f (Except.ok a : Except ε α) = Except.ok (f a) := rfl

/-- Helper: map on an error short-circuits. -/
theorem exceptMap_err {ε α β : Type} (f : α → β) (e : ε) :
    Except.map f (Except.error e : Except ε α) = Except.error e := rfl

/-- Helper: a non-empty raw where clause runs the denylist scan on its
    quote-stripped form. -/
theorem buildWhereClause_raw (s : String) (hs : s ≠ "") :
    buildWhereClause (some (.raw s)) =
      if containsDangerous (stripQuotedLiterals s)
      then Except.error "Unsafe where: potentially dangerous pattern detected"
      else Except.ok (some s) := by
  simp only [buildWhereClause, ensureSafeClause, hs, if_neg, if_false, ite_false]
  by_cases hd : containsDangerous (stripQuotedLiterals s)
  · rw [if_pos hd, if_pos hd]
    rfl
  · rw [if_neg hd, if_neg hd]
    rfl

/-- Helper: a query with only a where argument is the rendering of that
    clause alone. -/
theorem buildSoqlQuery_onlyWhere (w : Option WhereInput) :
    buildSoqlQuery { whereQ := w } =
      (buildWhereClause w).map
        (fun wh => String.intercalate " " (optPart "WHERE " wh)) := by
  cases hw : buildWhereClause w with
  | error e =>
    simp [buildSoqlQuery, soqlQueryParts, soqlPrelude, renderSelectList,
      renderGroupList, renderHavingClause, renderOrderList, searchText,
      hw, exceptBind_ok, exceptBind_err, exceptMap_err]
  | ok v =>
    simp [buildSoqlQuery, soqlQueryParts, soqlPrelude, renderSelectList,
      renderGroupList, renderHavingClause, renderOrderList, searchText,
      hw, exceptBind_ok, exceptMap_ok, optPart]

/-- Helper: a non-empty raw having clause runs the denylist scan on its
    quote-stripped form. -/
theorem renderHavingClause_some (s : String) (hs : s ≠ "") :
    renderHavingClause (some s) =
      if containsDangerous (stripQuotedLiterals s)
      then Except.error "Unsafe having: potentially dangerous pattern detected"
      else Except.ok (some s) := by
  simp only [renderHavingClause, ensureSafeClause, hs, if_neg, if_false, ite_false]
  by_cases hd : containsDangerous (stripQuotedLiterals s)
  · rw [if_pos hd, if_pos hd]
    rfl
  · rw [if_neg hd, if_neg hd]
    rfl

/-- Helper: a query with only a having argument is the rendering of that
    clause alone. -/
theorem buildSoqlQuery_onlyHaving (h : Option String) :
    buildSoqlQuery { having := h } =
      (renderHavingClause h).map
        (fun hv => String.intercalate " " (optPart "HAVING " hv)) := by
  cases hh : renderHavingClause h with
  | error e =>
    simp [buildSoqlQuery, soqlQueryParts, soqlPrelude, renderSelectList,
      buildWhereClause, renderGroupList, renderOrderList, searchText,
      hh, exceptBind_ok, exceptBind_err, exceptMap_err]
  | ok v =>
    simp [buildSoqlQuery, soqlQueryParts, soqlPrelude, renderSelectList,
      buildWhereClause, renderGroupList, renderOrderList, searchText,
      hh, exceptBind_ok, exceptMap_ok, optPart]

/-- C1: a raw where clause, and likewise a raw having clause, raises a
    validation error exactly when a denylisted pattern occurs in the clause
    after single- and double-quoted literals are stripped; on both paths a
    quoted UNION compiles while a bare UNION is rejected. -/
theorem rawClause_denylist_iff :
    (∀ s : String,
      (∃ e, buildSoqlQuery { whereQ := some (.raw s) } = .error e) ↔
        containsDangerous (stripQuotedLiterals s) = true) ∧
    (∀ s : String,
      (∃ e, buildSoqlQuery { having := some s } = .error e) ↔
        containsDangerous (stripQuotedLiterals s) = true) ∧
    buildSoqlQuery { whereQ := some (.raw ("type LIKE " ++ quo "Union Square%")) } =
      .ok ("WHERE type LIKE " ++ quo "Union Square%") ∧
    buildSoqlQuery { whereQ := some (.raw "1=1 UNION SELECT * FROM x") } =
      .error "Unsafe where: potentially dangerous pattern detected" ∧
    buildSoqlQuery { having := some ("type LIKE " ++ quo "Union Square%") } =
      .ok ("HAVING type LIKE " ++ quo "Union Square%") ∧
    buildSoqlQuery { having := some "1=1 UNION SELECT * FROM x" } =
      .error "Unsafe having: potentially dangerous pattern detected" := by
  refine ⟨fun s => ?_, fun s => ?_, by decide, by decide, by decide, by decide⟩
  · by_cases hs : s = ""
    · subst hs
      have hz : containsDangerous (stripQuotedLiterals "") = false := by decide
      refine iff_of_false ?_ (by simp [hz])
      rintro ⟨e, he⟩
      rw [buildSoqlQuery_onlyWhere] at he
      exact Except.noConfusion he
    · rw [buildSoqlQuery_onlyWhere, buildWhereClause_raw s hs]
      by_cases hd : containsDangerous (stripQuotedLiterals s) = true
      · rw [if_pos hd]
        exact iff_of_true ⟨_, rfl⟩ hd
      · rw [if_neg hd]
        refine iff_of_false ?_ hd
        rintro ⟨e, he⟩
        exact Except.noConfusion he
  · by_cases hs : s = ""
    · subst hs
      have hz : containsDangerous (stripQuotedLiterals "") = false := by decide
      refine iff_of_false ?_ (by simp [hz])
      rintro ⟨e, he⟩
      rw [buildSoqlQuery_onlyHaving] at he
      exact Except.noConfusion he
    · rw [buildSoqlQuery_onlyHaving, renderHavingClause_some s hs]
      by_cases hd : containsDangerous (stripQuotedLiterals s) = true
      · rw [if_pos hd]
        exact iff_of_true ⟨_, rfl⟩ hd
      · rw [if_neg hd]
        refine iff_of_false ?_ hd
        rintro ⟨e, he⟩
        exact Except.noConfusion he

/-- C9: an in or not-in condition with an absent values field does not
    raise the non-empty-values error: it falls through to the standard
    rendering, giving IS NULL when the value is also absent and a quoted
    in-comparison when a value is present; only a present-but-empty values
    array raises the error. -/
theorem inOperator_absent_values_fallthrough (f : String)
    (hf : fieldRegexMatch f = true) :
    buildConditionExpression { field := f, operator := some .opIn } =
      .ok (f ++ " IS NULL") ∧
    (∀ s : String,
      buildConditionExpression { field := f, operator := some .opIn, value := .str s } =
        .ok (f ++ " in " ++ quo (escapeQuotes s))) ∧
    buildConditionExpression { field := f, operator := some .notIn } =
      .ok (f ++ " IS NULL") ∧
    buildConditionExpression { field := f, operator := some .opIn, values := some [] } =
      .error "IN operator requires a non-empty values array" ∧
    buildConditionExpression { field := f, operator := some .notIn, values := some [] } =
      .error "IN operator requires a non-empty values array" := by
  have hv := validateField_ok f "where field" hf
  refine ⟨?_, fun s => ?_, ?_, ?_, ?_⟩ <;>
    simp [buildConditionExpression, standardRender, sanitizeValue, hv,
      exceptBind_ok, WhereOperator.render]
  exact append_mid f " " "in" " " " in " (quo (escapeQuotes s)) rfl

/-- Witness for C9 at a concrete field and value. -/
theorem inOperator_absent_values_fallthrough_witness :
    buildConditionExpression { field := "status", operator := some .opIn } =
      .ok ("status" ++ " IS NULL") ∧
    buildConditionExpression
        { field := "status", operator := some .opIn, value := .str "open" } =
      .ok ("status" ++ " in " ++ quo (escapeQuotes "open")) := by
  have h := inOperator_absent_values_fallthrough "status" (by decide)
  exact ⟨h.1, h.2.1 "open"⟩

/-- Helper: a successful mapM in Except preserves the list length. -/
theorem mapM_ok_length {α β : Type} (f : α → Except String β) :
    ∀ (l : List α) (rs : List β), l.mapM f = .ok rs → rs.length = l.length := by
  intro l
  induction l with
  | nil =>
    intro rs h
    rw [List.mapM_nil] at h
    cases h
    rfl
  | cons a l ih =>
    intro rs h
    rw [List.mapM_cons] at h
    cases hfa : f a with
    | error e => rw [hfa, exceptBind_err] at h; exact Except.noConfusion h
    | ok b =>
      rw [hfa, exceptBind_ok] at h
      cases hml : l.mapM f with
      | error e => rw [hml, exceptBind_err] at h; exact Except.noConfusion h
      | ok bs =>
        rw [hml, exceptBind_ok] at h
        cases h
        simp [ih bs hml]

/-- Helper: from index one onward, the reduce of buildWhereClause appends,
    for each expression, the joiner of the preceding condition. -/
theorem reduceAux_chain (l : List WhereCondition) :
    ∀ (es : List String) (k : Nat) (acc : String), k + es.length ≤ l.length →
      reduceAux l es (k + 1) acc =
        acc ++ strConcat (List.zipWith
          (fun cnd ex =>
            " " ++ (cnd.booleanType.map BoolJoin.render).getD "AND" ++
              " (" ++ ex ++ ")")
          (l.drop k) es) := by
  intro es
  induction es with
  | nil =>
    intro k acc _
    simp [reduceAux, strConcat, String.append_empty]
  | cons e es ih =>
    intro k acc hk
    have hklt : k < l.length := by
      have := hk
      simp [List.length_cons] at this
      omega
    have hstep : reduceAux l (e :: es) (k + 1) acc =
        reduceAux l es (k + 2)
          (acc ++ " " ++ joinerAt l k ++ " (" ++ e ++ ")") := by
      simp [reduceAux]
    rw [hstep]
    have hk2 : (k + 1) + es.length ≤ l.length := by
      simp [List.length_cons] at hk
      omega
    rw [show k + 2 = (k + 1) + 1 from rfl, ih (k + 1) _ hk2]
    rw [List.drop_eq_getElem_cons hklt]
    have hjoin : joinerAt l k =
        ((l[k].booleanType.map BoolJoin.render).getD "AND") := by
      simp [joinerAt, List.get?_eq_getElem?, hklt]
    rw [hjoin]
    simp [String.append_assoc, strConcat]

/-- C6: a non-empty condition list compiles by parenthesizing each
    condition and joining the i-th one with the booleanType of condition
    i-1, AND by default; the MANHATTAN-OR-BROOKLYN example renders exactly
    as stated. -/
theorem whereChain_prevJoiner :
    (∀ (c : WhereCondition) (cs : List WhereCondition) (exprs : List String),
      (c :: cs).mapM buildConditionExpression = .ok exprs →
      buildWhereClause (some (.conds (c :: cs))) =
        .ok (some (specJoin (c :: cs) exprs))) ∧
    buildSoqlQuery { whereQ := some (.conds
      [ { field := "borough", value := .str "MANHATTAN", booleanType := some .bOr },
        { field := "borough", value := .str "BROOKLYN" } ]) } =
      .ok ("WHERE (borough = " ++ quo "MANHATTAN" ++ ") OR (borough = " ++
        quo "BROOKLYN" ++ ")") := by
  constructor
  · intro c cs exprs h
    have hlen : exprs.length = (c :: cs).length :=
      mapM_ok_length buildConditionExpression (c :: cs) exprs h
    have hbw : buildWhereClause (some (.conds (c :: cs))) =
        .ok (some (reduceJoin (c :: cs) exprs)) := by
      have hne : (c :: cs) ≠ ([] : List WhereCondition) := by simp
      simp only [buildWhereClause, hne, if_neg, ite_false, h, exceptBind_ok]
      rfl
    rw [hbw]
    cases exprs with
    | nil => simp [List.length_cons] at hlen
    | cons e es =>
      have hes : es.length ≤ (c :: cs).length := by
        simp [List.length_cons] at hlen ⊢
        omega
      have h0 : reduceJoin (c :: cs) (e :: es) =
          reduceAux (c :: cs) es (0 + 1) ("(" ++ e ++ ")") := by
        simp [reduceJoin, reduceAux]
      rw [h0, reduceAux_chain (c :: cs) es 0 _ (by simpa using hes)]
      simp [specJoin]
  · decide

/-- Witness for C6: the theorem applied to the concrete two-condition
    list of the claim. -/
theorem whereChain_prevJoiner_witness :
    buildWhereClause (some (.conds
      [ { field := "borough", value := .str "MANHATTAN", booleanType := some .bOr },
        { field := "borough", value := .str "BROOKLYN" } ])) =
      .ok (some (specJoin
        [ { field := "borough", value := .str "MANHATTAN", booleanType := some .bOr },
          { field := "borough", value := .str "BROOKLYN" } ]
        [ "borough = " ++ quo "MANHATTAN", "borough = " ++ quo "BROOKLYN" ])) := by
  exact whereChain_prevJoiner.1
    { field := "borough", value := .str "MANHATTAN", booleanType := some .bOr }
    [ { field := "borough", value := .str "BROOKLYN" } ]
    [ "borough = " ++ quo "MANHATTAN", "borough = " ++ quo "BROOKLYN" ]
    (by decide)

/-- Helper: after deleting a key it is no longer contained. -/
theorem mapContains_mapDelete {K V : Type} [DecidableEq K]
    (m : List (K × CacheEntry V)) (k : K) :
    mapContains (mapDelete m k) k = false := by
  induction m with
  | nil => rfl
  | cons p ps ih =>
    by_cases h : p.1 = k
    · simp only [mapDelete, List.filter_cons, h, decide_True, Bool.not_true,
        Bool.false_eq_true, if_false, ite_false] at *
      exact ih
    · simp only [mapDelete, mapContains, mapGetEntry, List.filter_cons,
        List.find?_cons, h, decide_False, Bool.not_false, if_true, ite_true] at *
      exact ih

/-- Helper: a key that is not contained is not among the keys. -/
theorem notMem_keys_of_not_contains {K V : Type} [DecidableEq K]
    (m : List (K × CacheEntry V)) (k : K) (h : mapContains m k = false) :
    k ∉ m.map Prod.fst := by
  intro hmem
  rcases List.mem_map.mp hmem with ⟨p, hp, hpk⟩
  rw [mapContains, mapGetEntry] at h
  cases hf : m.find? (fun p => decide (p.1 = k)) with
  | some q => rw [hf] at h; simp at h
  | none =>
    have := List.find?_eq_none.mp hf p hp
    simp [hpk] at this

/-- Helper: deleting preserves distinctness of keys. -/
theorem keysNodup_mapDelete {K V : Type} [DecidableEq K]
    (m : List (K × CacheEntry V)) (k : K) (h : keysNodup m) :
    keysNodup (mapDelete m k) := by
  have hsub : List.Sublist (mapDelete m k) m := List.filter_sublist m
  exact List.Nodup.sublist (List.Sublist.map Prod.fst hsub) h

/-- Helper: the insertion step appends a fresh entry at the end. -/
theorem insertEntry_eq_append {K V : Type} [DecidableEq K]
    (c : LruCache K V) (k : K) (v : V) (now : ℤ) :
    c.insertEntry k v now =
      (if mapContains c.map k then mapDelete c.map k else c.map) ++
        [(k, { value := v, expiresAt := c.ttlMs.map (fun t => now + t) })] := by
  rw [LruCache.insertEntry]
  by_cases h : mapContains c.map k
  · have : mapContains (mapDelete c.map k) k = false := mapContains_mapDelete _ _
    simp [mapSet, h, this]
  · have hb : mapContains c.map k = false := by
      cases hcb : mapContains c.map k
      · rfl
      · exact absurd hcb h
    simp [mapSet, hb]

/-- Helper: the inserted map keeps keys distinct. -/
theorem keysNodup_insertEntry {K V : Type} [DecidableEq K]
    (c : LruCache K V) (k : K) (v : V) (now : ℤ) (h : keysNodup c.map) :
    keysNodup (c.insertEntry k v now) := by
  rw [insertEntry_eq_append]
  by_cases hc : mapContains c.map k
  · have h1 : keysNodup (mapDelete c.map k) := keysNodup_mapDelete _ _ h
    have h2 : k ∉ (mapDelete c.map k).map Prod.fst :=
      notMem_keys_of_not_contains _ _ (mapContains_mapDelete _ _)
    simp only [hc, if_true, keysNodup, List.map_append, List.map_cons,
      List.map_nil]
    exact List.Nodup.append h1 (List.nodup_singleton k)
      (by
        intro a ha hb
        simp at hb
        subst hb
        exact h2 ha)
  · have hb : mapContains c.map k = false := by
      cases hcb : mapContains c.map k
      · rfl
      · exact absurd hcb hc
    have h2 : k ∉ c.map.map Prod.fst := notMem_keys_of_not_contains _ _ hb
    simp only [hc, if_false, ite_false, keysNodup, List.map_append,
      List.map_cons, List.map_nil]
    exact List.Nodup.append h (List.nodup_singleton k)
      (by
        intro a ha hbmem
        simp at hbmem
        subst hbmem
        exact h2 ha)

/-- Helper: with distinct keys, deleting the head key drops exactly the
    head. -/
theorem mapDelete_head {K V : Type} [DecidableEq K]
    (p : K × CacheEntry V) (rest : List (K × CacheEntry V))
    (h : keysNodup (p :: rest)) :
    mapDelete (p :: rest) p.1 = rest := by
  have hnot : ∀ (x : CacheEntry V), (p.1, x) ∉ rest := by
    have h2 := h
    simp [keysNodup, List.map_cons] at h2
    exact h2.1
  have hall : ∀ q ∈ rest, (!(decide (q.1 = p.1))) = true := by
    intro q hq
    have hne : q.1 ≠ p.1 := by
      intro he
      have hmem : (p.1, q.2) ∈ rest := by
        rw [← he]
        simpa using hq
      exact hnot q.2 hmem
    simp [hne]
  rw [mapDelete, List.filter_cons]
  have hself : List.filter (fun q => !decide (q.1 = p.1)) rest = rest :=
    List.filter_eq_self.mpr hall
  simp [hself]

/-- C8: a set that pushes the size past capacity evicts exactly the single
    least-recently-used entry (the head of the recency list); get treats an
    entry whose recorded expiry lies in the past as a miss and deletes it
    before any promotion; with capacity 2 and inserts A, B, C, get(A)
    misses while get(B) and get(C) hit; with TTL 100 a key read at 150 is
    a miss. -/
theorem cache_lru_eviction_and_ttl :
    (∀ (K V : Type) [DecidableEq K] (c : LruCache K V) (k : K) (v : V) (now : ℤ),
      keysNodup c.map →
      ((c.insertEntry k v now).length > c.capacity →
        (c.set k v now).map = (c.insertEntry k v now).tail) ∧
      (¬ (c.insertEntry k v now).length > c.capacity →
        (c.set k v now).map = c.insertEntry k v now)) ∧
    (∀ (K V : Type) [DecidableEq K] (c : LruCache K V) (k : K) (now : ℤ)
        (entry : CacheEntry V) (exp : ℤ),
      mapGetEntry c.map k = some entry → entry.expiresAt = some exp →
      now > exp →
      c.get k now = (none, { c with map := mapDelete c.map k })) ∧
    (((((((LruCache.empty 2 none : LruCache String Nat).set "A" 1 0).set
        "B" 2 1).set "C" 3 2).get "A" 10).1 = none) ∧
      (((((((LruCache.empty 2 none : LruCache String Nat).set "A" 1 0).set
        "B" 2 1).set "C" 3 2).get "A" 10).2.get "B" 11).1 = some 2) ∧
      ((((((((LruCache.empty 2 none : LruCache String Nat).set "A" 1 0).set
        "B" 2 1).set "C" 3 2).get "A" 10).2.get "B" 11).2.get "C" 12).1 =
        some 3)) ∧
    (((LruCache.empty 100 (some 100) : LruCache String Nat).set "K" 7 0).get
      "K" 150).1 = none := by
  refine ⟨?_, ?_, by decide, by decide⟩
  · intro K V instK c k v now hnd
    have hnd2 : keysNodup (c.insertEntry k v now) :=
      keysNodup_insertEntry c k v now hnd
    constructor
    · intro hgt
      simp only [LruCache.set]
      rw [if_pos hgt]
      cases hm : c.insertEntry k v now with
      | nil =>
        rw [hm] at hgt
        simp at hgt
      | cons p rest =>
        rw [hm] at hnd2
        simp only [List.head?_cons, List.tail_cons]
        exact mapDelete_head p rest hnd2
    · intro hle
      simp only [LruCache.set]
      rw [if_neg hle]
  · intro K V instK c k now entry exp h1 h2 h3
    rw [LruCache.get, h1]
    simp [h2, h3]

/-- Witness for C8: the capacity-overflow eviction applied after inserting
    A and B into a capacity-2 cache, and the expiry miss applied to a key
    inserted with TTL 100 and read at time 150. -/
theorem cache_lru_eviction_and_ttl_witness :
    ((((LruCache.empty 2 none : LruCache String Nat).set "A" 1 0).set
        "B" 2 1).set "C" 3 2).map =
      ((((LruCache.empty 2 none : LruCache String Nat).set "A" 1 0).set
        "B" 2 1).insertEntry "C" 3 2).tail ∧
    (let cK := (LruCache.empty 100 (some 100) : LruCache String Nat).set "K" 7 0
     cK.get "K" 150 = (none, { cK with map := mapDelete cK.map "K" })) := by
  constructor
  · exact (cache_lru_eviction_and_ttl.1 String Nat
      (((LruCache.empty 2 none : LruCache String Nat).set "A" 1 0).set "B" 2 1)
      "C" 3 2 (by decide)).1 (by decide)
  · exact cache_lru_eviction_and_ttl.2.1 String Nat
      ((LruCache.empty 100 (some 100) : LruCache String Nat).set "K" 7 0)
      "K" 150 { value := 7, expiresAt := some 100 } 100
      (by decide) (by decide) (by decide)

/-- Helper: deleting never lengthens the map. -/
theorem length_mapDelete_le {K V : Type} [DecidableEq K]
    (m : List (K × CacheEntry V)) (k : K) :
    (mapDelete m k).length ≤ m.length :=
  List.length_filter_le _ m

/-- Helper: deleting a contained key strictly shortens the map. -/
theorem length_mapDelete_lt {K V : Type} [DecidableEq K]
    (m : List (K × CacheEntry V)) (k : K) (h : mapContains m k = true) :
    (mapDelete m k).length < m.length := by
  rw [mapContains, mapGetEntry] at h
  cases hf : m.find? (fun p => decide (p.1 = k)) with
  | none => rw [hf] at h; simp at h
  | some q =>
    have hq : q ∈ m := List.mem_of_find?_eq_some hf
    have hqk : q.1 = k := by
      have := List.find?_some hf
      simpa using this
    rw [mapDelete]
    refine List.length_filter_lt_length_iff_exists.mpr ⟨q, hq, ?_⟩
    simp [hqk]

/-- Helper: the length of a set result, by containment. -/
theorem length_mapSet {K V : Type} [DecidableEq K]
    (m : List (K × CacheEntry V)) (k : K) (e : CacheEntry V) :
    (mapSet m k e).length =
      if mapContains m k then m.length else m.length + 1 := by
  rw [mapSet]
  by_cases h : mapContains m k
  · simp [h]
  · simp [h]

/-- Helper: the head key of a non-empty map is contained. -/
theorem mapContains_head {K V : Type} [DecidableEq K]
    (p : K × CacheEntry V) (rest : List (K × CacheEntry V)) :
    mapContains (p :: rest) p.1 = true := by
  simp [mapContains, mapGetEntry, List.find?_cons]

/-- Helper: get preserves the capacity field. -/
theorem get_capacity {K V : Type} [DecidableEq K]
    (c : LruCache K V) (k : K) (now : ℤ) :
    ((c.get k now).2).capacity = c.capacity := by
  rw [LruCache.get]
  cases hm : mapGetEntry c.map k with
  | none => rfl
  | some entry =>
    cases hexp : entry.expiresAt with
    | none => simp [hexp]
    | some exp =>
      by_cases hgt : now > exp
      · simp [hexp, hgt]
      · simp [hexp, hgt]

/-- Helper: get never grows the cache. -/
theorem get_size_le {K V : Type} [DecidableEq K]
    (c : LruCache K V) (k : K) (now : ℤ) :
    ((c.get k now).2).size ≤ c.size := by
  rw [LruCache.get]
  cases hm : mapGetEntry c.map k with
  | none => exact le_refl _
  | some entry =>
    have hcont : mapContains c.map k = true := by
      rw [mapContains, hm]
      rfl
    have hdel_lt : (mapDelete c.map k).length < c.map.length :=
      length_mapDelete_lt _ _ hcont
    have hnc : mapContains (mapDelete c.map k) k = false :=
      mapContains_mapDelete _ _
    cases hexp : entry.expiresAt with
    | none =>
      simp [hexp, LruCache.size, length_mapSet, hnc]
      omega
    | some exp =>
      by_cases hgt : now > exp
      · simp [hexp, hgt, LruCache.size]
        omega
      · simp [hexp, hgt, LruCache.size, length_mapSet, hnc]
        omega

/-- Helper: set keeps the size within a capacity bound it starts within. -/
theorem set_size_le {K V : Type} [DecidableEq K]
    (c : LruCache K V) (k : K) (v : V) (now : ℤ) (h : c.size ≤ c.capacity) :
    (c.set k v now).size ≤ c.capacity := by
  have hm1 : (if mapContains c.map k then mapDelete c.map k else c.map).length ≤
      c.map.length := by
    by_cases hc : mapContains c.map k
    · simp only [hc, if_true, ite_true]
      exact length_mapDelete_le _ _
    · simp [hc]
  have hins : (c.insertEntry k v now).length ≤ c.map.length + 1 := by
    rw [insertEntry_eq_append]
    rw [List.length_append]
    simpa using hm1
  simp only [LruCache.set]
  cases hm : c.insertEntry k v now with
  | nil =>
    simp [LruCache.size]
  | cons p rest =>
    rw [hm] at hins
    by_cases hgt : (p :: rest).length > c.capacity
    · rw [if_pos hgt]
      simp only [List.head?_cons, LruCache.size]
      have hlt : (mapDelete (p :: rest) p.1).length < (p :: rest).length :=
        length_mapDelete_lt _ _ (mapContains_head p rest)
      have hsz : c.map.length ≤ c.capacity := h
      omega
    · rw [if_neg hgt]
      simp only [LruCache.size]
      omega

/-- Helper: every operation preserves the capacity field. -/
theorem applyOp_capacity {K V : Type} [DecidableEq K]
    (c : LruCache K V) (op : CacheOp K V) :
    (applyOp c op).capacity = c.capacity := by
  cases op with
  | opGet k t => exact get_capacity c k t
  | opSet k v t => rfl
  | opClear => rfl

/-- Helper: every operation preserves the size bound. -/
theorem applyOp_size {K V : Type} [DecidableEq K]
    (c : LruCache K V) (op : CacheOp K V) (h : c.size ≤ c.capacity) :
    (applyOp c op).size ≤ c.capacity := by
  cases op with
  | opGet k t => exact le_trans (get_size_le c k t) h
  | opSet k v t => exact set_size_le c k v t h
  | opClear => simp [applyOp, LruCache.clear, LruCache.size]

/-- Helper: the fold of operations keeps the invariant. -/
theorem foldl_applyOp_inv {K V : Type} [DecidableEq K] :
    ∀ (ops : List (CacheOp K V)) (c : LruCache K V), c.size ≤ c.capacity →
      (ops.foldl applyOp c).size ≤ c.capacity ∧
      (ops.foldl applyOp c).capacity = c.capacity := by
  intro ops
  induction ops with
  | nil => intro c h; exact ⟨h, rfl⟩
  | cons op ops ih =>
    intro c h
    have h1 : (applyOp c op).size ≤ (applyOp c op).capacity := by
      rw [applyOp_capacity]
      exact applyOp_size c op h
    have h2 := ih (applyOp c op) h1
    rw [List.foldl_cons]
    refine ⟨?_, ?_⟩
    · have := h2.1
      rw [applyOp_capacity] at this
      exact this
    · rw [h2.2, applyOp_capacity]

/-- C10: for a cache of capacity cap, the size stays at most cap after any
    sequence of get, set and clear operations applied to a fresh cache. -/
theorem cache_size_invariant :
    ∀ (K V : Type) [DecidableEq K] (cap : Nat) (ttl : Option ℤ)
      (ops : List (CacheOp K V)),
      (ops.foldl applyOp (LruCache.empty cap ttl)).size ≤ cap := by
  intro K V instK cap ttl ops
  have h0 : (LruCache.empty cap ttl : LruCache K V).size ≤
      (LruCache.empty cap ttl : LruCache K V).capacity := by
    simp [LruCache.empty, LruCache.size]
  exact (foldl_applyOp_inv ops (LruCache.empty cap ttl) h0).1

/-- C5 counterexample: the search clause is not carried identically by the
    two modes: the parameter map holds the raw term under the q key while
    the composed string holds the quoted, quote-escaped literal, so for a
    term containing a quote the two differ. -/
theorem soql_q_mode_counterexample :
    buildSoqlParams { search := some ("O" ++ sq ++ "Brien") } =
      .ok [("$q", "O" ++ sq ++ "Brien")] ∧
    buildSoqlQuery { search := some ("O" ++ sq ++ "Brien") } =
      .ok ("SEARCH " ++ quo (escapeQuotes ("O" ++ sq ++ "Brien"))) ∧
    ("O" ++ sq ++ "Brien") ≠ escapeQuotes ("O" ++ sq ++ "Brien") := by
  refine ⟨by decide, by decide, by decide⟩

/-- C5 (amended): the two output modes run identical validation, failing
    with the same error, and on success the string-mode parts are exactly
    the parameter-map entries with their keywords prepended, except the q
    entry, which holds the raw search term while the string mode renders
    the quoted, escaped literal. -/
theorem soql_mode_agreement (p : SoqlParams) :
    (∀ e, buildSoqlQuery p = .error e ↔ buildSoqlParams p = .error e) ∧
    (∀ parts entries, soqlQueryParts p = .ok parts →
      buildSoqlParams p = .ok entries →
      parts = entries.map entryToPart ∧
      buildSoqlQuery p = .ok (String.intercalate " " parts)) := by
  cases hpre : soqlPrelude p with
  | error e0 =>
    have hq : soqlQueryParts p = .error e0 := by
      simp only [soqlQueryParts]
      rw [hpre, exceptBind_err]
    have hp : buildSoqlParams p = .error e0 := by
      simp only [buildSoqlParams]
      rw [hpre, exceptBind_err]
    have hqq : buildSoqlQuery p = .error e0 := by
      rw [buildSoqlQuery, hq, exceptMap_err]
    refine ⟨fun e => by rw [hqq, hp]; simp,
      fun parts entries h1 h2 => ?_⟩
    rw [hq] at h1
    exact Except.noConfusion h1
  | ok quint =>
    obtain ⟨sel, wh, gr, hav, ord⟩ := quint
    have hq : soqlQueryParts p = .ok
        (optPart "SELECT " sel ++ optPart "WHERE " wh ++
          optPart "GROUP BY " gr ++ optPart "HAVING " hav ++
          optPart "ORDER BY " ord ++
          (match searchText p with
           | some s => ["SEARCH " ++ quo (escapeQuotes s)]
           | none => []) ++
          (match p.limit with
           | some n => ["LIMIT " ++ toString n]
           | none => []) ++
          (match p.offset with
           | some n => ["OFFSET " ++ toString n]
           | none => [])) := by
      simp only [soqlQueryParts]
      rw [hpre, exceptBind_ok]
      rfl
    have hp : buildSoqlParams p = .ok
        (optEntry "$select" sel ++ optEntry "$where" wh ++
          optEntry "$group" gr ++ optEntry "$having" hav ++
          optEntry "$order" ord ++
          (match searchText p with
           | some s => [("$q", s)]
           | none => []) ++
          (match p.limit with
           | some n => [("$limit", toString n)]
           | none => []) ++
          (match p.offset with
           | some n => [("$offset", toString n)]
           | none => [])) := by
      simp only [buildSoqlParams]
      rw [hpre, exceptBind_ok]
      rfl
    have hqq : ∀ e, ¬ buildSoqlQuery p = .error e := by
      intro e he
      rw [buildSoqlQuery, hq, exceptMap_ok] at he
      exact Except.noConfusion he
    have hpp : ∀ e, ¬ buildSoqlParams p = .error e := by
      intro e he
      rw [hp] at he
      exact Except.noConfusion he
    refine ⟨fun e => iff_of_false (hqq e) (hpp e),
      fun parts entries h1 h2 => ?_⟩
    rw [hq] at h1
    rw [hp] at h2
    injection h1 with h1
    injection h2 with h2
    subst h1
    subst h2
    constructor
    · cases sel <;> cases wh <;> cases gr <;> cases hav <;> cases ord <;>
        cases searchText p <;> cases p.limit <;> cases p.offset <;> rfl
    · rw [buildSoqlQuery, hq, exceptMap_ok]

/-- Witness for C5 (amended) at a concrete query with a where clause, a
    search term, a limit and an offset. -/
theorem soql_mode_agreement_witness :
    (let p0 : SoqlParams := { whereQ := some (.raw ("a = " ++ quo "b")), search := some "x", limit := some 5, offset := some 10 }
     (buildSoqlQuery p0 = .error "e" ↔ buildSoqlParams p0 = .error "e") ∧
      (["WHERE a = " ++ quo "b", "SEARCH " ++ quo "x", "LIMIT 5", "OFFSET 10"] =
          ([("$where", "a = " ++ quo "b"), ("$q", "x"), ("$limit", "5"),
            ("$offset", "10")]).map entryToPart ∧
        buildSoqlQuery p0 =
          .ok (String.intercalate " "
            ["WHERE a = " ++ quo "b", "SEARCH " ++ quo "x", "LIMIT 5",
              "OFFSET 10"]))) := by
  intro p0
  have h := soql_mode_agreement p0
  exact ⟨h.1 "e", h.2
    ["WHERE a = " ++ quo "b", "SEARCH " ++ quo "x", "LIMIT 5", "OFFSET 10"]
    [("$where", "a = " ++ quo "b"), ("$q", "x"), ("$limit", "5"),
      ("$offset", "10")]
    (by decide) (by decide)⟩

/-- Helper: the full characterization of the retry loop run without a
    limiter, by induction on the remaining iteration budget. -/
theorem requestAux_spec {α : Type} (b : Nat) (net : Nat → AttemptOutcome α)
    (t : Nat → ℤ) :
    ∀ (fuel attempt : Nat) (le : Option ReqError),
      (requestAux b net t fuel attempt le none).attempts ≤ attempt + fuel ∧
      (0 < fuel →
        attempt < (requestAux b net t fuel attempt le none).attempts ∧
        (requestAux b net t fuel attempt le none).result =
          outcomeResult (net (requestAux b net t fuel attempt le none).attempts) ∧
        (∀ i, attempt < i →
          i < (requestAux b net t fuel attempt le none).attempts →
          stopAt net i = false) ∧
        ((requestAux b net t fuel attempt le none).attempts < attempt + fuel →
          stopAt net (requestAux b net t fuel attempt le none).attempts = true) ∧
        (requestAux b net t fuel attempt le none).delays =
          (List.range
            ((requestAux b net t fuel attempt le none).attempts - attempt - 1)).map
            (fun k => b * 2 ^ (attempt + k))) := by
  intro fuel
  induction fuel with
  | zero =>
    intro attempt le
    constructor
    · simp [requestAux]
    · intro h
      exact absurd h (by omega)
  | succ f ih =>
    intro attempt le
    cases hnet : net (attempt + 1) with
    | success resp =>
      have hstep : requestAux b net t (f + 1) attempt le none =
          { result := .ok resp, attempts := attempt + 1, delays := [] } := by
        simp [requestAux, performRequest, outcomeResult, hnet]
      rw [hstep]
      simp only []
      refine ⟨by omega, fun _ => ⟨by omega, ?_, ?_, ?_, ?_⟩⟩
      · simp [hnet, outcomeResult]
      · intro i h1 h2
        omega
      · intro _
        simp [stopAt, hnet]
      · simp
    | failure err =>
      by_cases hr : isRetryableStatus (extractStatus err) = true
      · by_cases hf : f = 0
        · subst hf
          have hstep : requestAux b net t (0 + 1) attempt le none =
              { result := .error err, attempts := attempt + 1, delays := [] } := by
            simp [requestAux, performRequest, outcomeResult, hnet, hr]
          rw [hstep]
          simp only []
          refine ⟨by omega, fun _ => ⟨by omega, ?_, ?_, ?_, ?_⟩⟩
          · simp [hnet, outcomeResult]
          · intro i h1 h2
            omega
          · intro hlt
            exact absurd hlt (by omega)
          · simp
        · have hstep : requestAux b net t (f + 1) attempt le none =
              { result := (requestAux b net t f (attempt + 1) (some err) none).result,
                attempts := (requestAux b net t f (attempt + 1) (some err) none).attempts,
                delays := (b * 2 ^ (attempt + 1 - 1)) ::
                  (requestAux b net t f (attempt + 1) (some err) none).delays } := by
            simp [requestAux, performRequest, outcomeResult, hnet, hr, hf]
          have hihall := ih (attempt + 1) (some err)
          have hih := hihall.2 (by omega)
          rw [hstep]
          refine ⟨by simp; omega, fun _ => ⟨by simp; omega, ?_, ?_, ?_, ?_⟩⟩
          · simp [hih.2.1]
          · intro i h1 h2
            simp at h2
            by_cases hi : i = attempt + 1
            · subst hi
              simp [stopAt, hnet, hr]
            · exact hih.2.2.1 i (by omega) h2
          · intro hlt
            simp at hlt
            exact hih.2.2.2.1 (by omega)
          · simp only [hih.2.2.2.2]
            have hn : (requestAux b net t f (attempt + 1) (some err) none).attempts -
                attempt - 1 =
                ((requestAux b net t f (attempt + 1) (some err) none).attempts -
                  (attempt + 1) - 1) + 1 := by
              have := hih.1
              omega
            rw [hn, List.range_succ_eq_map, List.map_cons, List.map_map]
            have hx : attempt + 1 - 1 = attempt + 0 := by omega
            have hfun : ((fun k => b * 2 ^ (attempt + k)) ∘ Nat.succ) =
                (fun k => b * 2 ^ (attempt + 1 + k)) := by
              funext k
              have hz : attempt + (k + 1) = attempt + 1 + k := by omega
              simp [Function.comp, hz]
            rw [hx, hfun]
      · have hrb : isRetryableStatus (extractStatus err) = false := by
          cases hb : isRetryableStatus (extractStatus err)
          · rfl
          · exact absurd hb hr
        have hstep : requestAux b net t (f + 1) attempt le none =
            { result := .error err, attempts := attempt + 1, delays := [] } := by
          simp [requestAux, performRequest, outcomeResult, hnet, hrb]
        rw [hstep]
        simp only []
        refine ⟨by omega, fun _ => ⟨by omega, ?_, ?_, ?_, ?_⟩⟩
        · simp [hnet, outcomeResult]
        · intro i h1 h2
          omega
        · intro _
          simp [stopAt, hnet, hrb]
        · simp

/-- C4: the executor performs at most maxRetries attempts; every attempt
    that is followed by another one failed with status 429 or in the 500
    range; when the loop stops before the budget is exhausted the last
    attempt succeeded or failed non-retryably; the outcome of the last
    attempt is what is surfaced; the backoff before attempt a+1 is
    base * 2^(a-1); and the 429-then-200 scenario performs exactly 2
    attempts and returns the second parsed body. -/
theorem httpClient_retry_policy :
    (∀ (α : Type) (mr b : Nat) (net : Nat → AttemptOutcome α) (t : Nat → ℤ),
      (request mr b net t none).attempts ≤ mr ∧
      (∀ i, 0 < i → i < (request mr b net t none).attempts →
        stopAt net i = false) ∧
      (0 < mr →
        (request mr b net t none).result =
          outcomeResult (net (request mr b net t none).attempts) ∧
        ((request mr b net t none).attempts < mr →
          stopAt net (request mr b net t none).attempts = true) ∧
        (request mr b net t none).delays =
          (List.range ((request mr b net t none).attempts - 1)).map
            (fun k => b * 2 ^ k))) ∧
    request 3 100
      (fun i => if i = 1 then
          AttemptOutcome.failure (.http 429 "HTTP 429: rate limited")
        else AttemptOutcome.success (⟨200, "second-body"⟩ : HttpResponseM String))
      (fun _ => 0) none =
      { result := .ok ⟨200, "second-body"⟩, attempts := 2, delays := [100] } := by
  constructor
  · intro α mr b net t
    simp only [request]
    have h := requestAux_spec b net t mr 0 none
    cases hmr : mr with
    | zero =>
      subst hmr
      refine ⟨by simpa using h.1, fun i h1 h2 => ?_, fun h0 => absurd h0 (by omega)⟩
      have h1le := h.1
      simp only [Nat.zero_add, Nat.add_zero] at h1le
      omega
    | succ m =>
      subst hmr
      have hpos := h.2 (by omega)
      refine ⟨by simpa using h.1, fun i h1 h2 => ?_, fun _ => ⟨?_, ?_, ?_⟩⟩
      · exact hpos.2.2.1 i h1 h2
      · exact hpos.2.1
      · intro hlt
        exact hpos.2.2.2.1 (by simpa using hlt)
      · have hd := hpos.2.2.2.2
        have hfun : (fun k => b * 2 ^ (0 + k)) = (fun k => b * 2 ^ k) := by
          funext k
          simp
        rw [hd, hfun]
        simp
  · decide

/-- Witness for C4: the characterization applied to the 429-then-200
    oracle, discharging the hypotheses at concrete attempt indices. -/
theorem httpClient_retry_policy_witness :
    (request 3 100
      (fun i => if i = 1 then
          AttemptOutcome.failure (.http 429 "HTTP 429: rate limited")
        else AttemptOutcome.success (⟨200, "second-body"⟩ : HttpResponseM String))
      (fun _ => 0) none).attempts ≤ 3 ∧
    stopAt
      (fun i => if i = 1 then
          AttemptOutcome.failure (.http 429 "HTTP 429: rate limited")
        else AttemptOutcome.success (⟨200, "second-body"⟩ : HttpResponseM String))
      1 = false ∧
    (request 3 100
      (fun i => if i = 1 then
          AttemptOutcome.failure (.http 429 "HTTP 429: rate limited")
        else AttemptOutcome.success (⟨200, "second-body"⟩ : HttpResponseM String))
      (fun _ => 0) none).delays =
      (List.range 1).map (fun k => 100 * 2 ^ k) := by
  have h := httpClient_retry_policy.1 String 3 100
    (fun i => if i = 1 then
        AttemptOutcome.failure (.http 429 "HTTP 429: rate limited")
      else AttemptOutcome.success (⟨200, "second-body"⟩ : HttpResponseM String))
    (fun _ => 0)
  refine ⟨h.1, h.2.1 1 (by decide) (by decide), ?_⟩
  have hd := (h.2.2 (by decide)).2.2
  have ha : (request 3 100
      (fun i => if i = 1 then
          AttemptOutcome.failure (.http 429 "HTTP 429: rate limited")
        else AttemptOutcome.success (⟨200, "second-body"⟩ : HttpResponseM String))
      (fun _ => 0) none).attempts = 2 := by decide
  rw [hd, ha]

/-- C2 counterexample: with a bound limiter whose allowance is exhausted,
    the executor performs all 3 attempts with backoffs 100 and 200 before
    surfacing the denial, which is carried as HttpError status 429; the
    denial is therefore retried internally and consumes the whole retry
    budget rather than being surfaced immediately. -/
theorem requestAux_alwaysDeny {α : Type} (b : Nat) (net : Nat → AttemptOutcome α)
    (t : Nat → ℤ) (rl : RateLimiter) (hd : ∀ i, rl.allow (t i) = (false, rl)) :
    ∀ (fuel attempt : Nat) (le : Option ReqError), 0 < fuel →
      requestAux b net t fuel attempt le (some rl) =
        { result := .error (.http 429 rateLimitMsg),
          attempts := attempt + fuel,
          delays := (List.range (fuel - 1)).map (fun k => b * 2 ^ (attempt + k)) } := by
  intro fuel
  induction fuel with
  | zero =>
    intro attempt le h0
    exact absurd h0 (by omega)
  | succ f ih =>
    intro attempt le _
    have hstep : performRequest (some rl) (t (attempt + 1)) (net (attempt + 1)) =
        (.error (.http 429 rateLimitMsg), some rl) := by
      rw [performRequest, hd (attempt + 1)]
      simp
    by_cases hf : f = 0
    · subst hf
      simp [requestAux, hstep, isRetryableStatus, extractStatus]
    · have hrec := ih (attempt + 1) (some (.http 429 rateLimitMsg)) (by omega)
      have h1 : requestAux b net t (f + 1) attempt le (some rl) =
          { result := (requestAux b net t f (attempt + 1)
              (some (.http 429 rateLimitMsg)) (some rl)).result,
            attempts := (requestAux b net t f (attempt + 1)
              (some (.http 429 rateLimitMsg)) (some rl)).attempts,
            delays := (b * 2 ^ (attempt + 1 - 1)) ::
              (requestAux b net t f (attempt + 1)
                (some (.http 429 rateLimitMsg)) (some rl)).delays } := by
        simp [requestAux, hstep, isRetryableStatus, extractStatus, hf]
      rw [h1, hrec]
      simp only []
      have hn : f + 1 - 1 = (f - 1) + 1 := by omega
      rw [hn, List.range_succ_eq_map, List.map_cons, List.map_map]
      have hx : attempt + 1 - 1 = attempt + 0 := by omega
      have hfun : ((fun k => b * 2 ^ (attempt + k)) ∘ Nat.succ) =
          (fun k => b * 2 ^ (attempt + 1 + k)) := by
        funext k
        have hz : attempt + (k + 1) = attempt + 1 + k := by omega
        simp [Function.comp, hz]
      rw [hx, hfun]
      have ha : attempt + (f + 1) = attempt + 1 + f := by omega
      rw [ha]

/-- Helper: the exhausted capacity-1 limiter at time 0 denies and keeps its
    state. -/
theorem denyLimiter_allow :
    ∀ (i : Nat),
      (({ ratePerHour := 1, allowance := 0, lastCheck := 0 } :
        RateLimiter).allow ((fun (_ : Nat) => (0 : Int)) i)) =
        (false, { ratePerHour := 1, allowance := 0, lastCheck := 0 }) := by
  intro i
  norm_num [RateLimiter.allow, min_def]

/-- C2 counterexample: with a bound limiter whose allowance is exhausted,
    the executor performs all 3 attempts with backoffs 100 and 200 before
    surfacing the denial, which is carried as HttpError status 429; the
    denial is therefore retried internally and consumes the whole retry
    budget rather than being surfaced immediately. -/
theorem rateLimitDenial_retried_counterexample :
    request 3 100
      (fun _ => AttemptOutcome.success (⟨200, "ok-body"⟩ : HttpResponseM String))
      (fun _ => 0)
      (some { ratePerHour := 1, allowance := 0, lastCheck := 0 }) =
      { result := .error (.http 429 rateLimitMsg), attempts := 3,
        delays := [100, 200] } ∧
    (3 : Nat) ≠ 1 ∧ ([100, 200] : List Nat) ≠ [] := by
  refine ⟨?_, by decide, by decide⟩
  rw [request, requestAux_alwaysDeny 100
    (fun _ => AttemptOutcome.success (⟨200, "ok-body"⟩ : HttpResponseM String))
    (fun _ => 0) { ratePerHour := 1, allowance := 0, lastCheck := 0 }
    denyLimiter_allow 3 0 none (by omega)]
  decide

/-- C2 (amended): a limiter denial makes performRequest raise HttpError
    with status 429 and the client-rate-limit message without touching the
    network; because it carries status 429 the retry classifier treats it
    exactly like a server 429, so it is retried with backoff and consumes
    the retry budget. -/
theorem rateLimitDenial_behavior {α : Type} (rl : RateLimiter) (now : ℤ)
    (net : AttemptOutcome α) (h : (rl.allow now).1 = false) :
    performRequest (some rl) now net =
      (.error (.http 429 rateLimitMsg), some (rl.allow now).2) ∧
    isRetryableStatus (extractStatus (.http 429 rateLimitMsg)) = true := by
  constructor
  · rw [performRequest]
    simp [h]
  · decide

/-- Witness for C2 (amended): the exhausted limiter denies and the denial
    is classified retryable. -/
theorem rateLimitDenial_behavior_witness :
    performRequest (some { ratePerHour := 1, allowance := 0, lastCheck := 0 }) 0
      (AttemptOutcome.success (⟨200, "ok-body"⟩ : HttpResponseM String)) =
      (.error (.http 429 rateLimitMsg),
        some (({ ratePerHour := 1, allowance := 0, lastCheck := 0 } :
          RateLimiter).allow 0).2) ∧
    isRetryableStatus (extractStatus (.http 429 rateLimitMsg)) = true := by
  exact rateLimitDenial_behavior { ratePerHour := 1, allowance := 0, lastCheck := 0 }
    0 (AttemptOutcome.success (⟨200, "ok-body"⟩ : HttpResponseM String))
    (by norm_num [RateLimiter.allow, min_def])

/-- C3 counterexample: a status-less abort (the shape a timeout produces)
    on the first attempt is surfaced immediately after exactly one attempt
    with no backoff, even though the budget of 3 attempts is not
    exhausted and a later attempt would have succeeded. -/
theorem timeout_not_retried_counterexample :
    request 3 100
      (fun i => if i = 1 then
          AttemptOutcome.failure (.netfail "This operation was aborted")
        else AttemptOutcome.success (⟨200, "late-body"⟩ : HttpResponseM String))
      (fun _ => 0) none =
      { result := .error (.netfail "This operation was aborted"), attempts := 1,
        delays := [] } ∧
    (1 : Nat) < 3 := by
  refine ⟨by decide, by decide⟩

/-- C3 (amended): a timeout aborts the in-flight attempt and surfaces an
    error carrying no HTTP status; since retryability requires status 429
    or the 500 range, such a failure on the first attempt ends the loop
    immediately with one attempt and no backoff. -/
theorem timeout_surfaced_immediately {α : Type} (mr b : Nat)
    (net : Nat → AttemptOutcome α) (t : Nat → ℤ) (msg : String)
    (hmr : 0 < mr) (h1 : net 1 = .failure (.netfail msg)) :
    request mr b net t none =
      { result := .error (.netfail msg), attempts := 1, delays := [] } := by
  cases mr with
  | zero => exact absurd hmr (by omega)
  | succ m =>
    rw [request]
    simp [requestAux, performRequest, h1, outcomeResult, isRetryableStatus,
      extractStatus]

/-- Witness for C3 (amended): the concrete aborted first attempt. -/
theorem timeout_surfaced_immediately_witness :
    request 3 100
      (fun i => if i = 1 then
          AttemptOutcome.failure (.netfail "This operation was aborted")
        else AttemptOutcome.success (⟨200, "late-body"⟩ : HttpResponseM String))
      (fun _ => 0) none =
      { result := .error (.netfail "This operation was aborted"), attempts := 1,
        delays := [] } := by
  exact timeout_surfaced_immediately 3 100
    (fun i => if i = 1 then
        AttemptOutcome.failure (.netfail "This operation was aborted")
      else AttemptOutcome.success (⟨200, "late-body"⟩ : HttpResponseM String))
    (fun _ => 0) "This operation was aborted" (by decide) (by decide)

end Odp
